import Mathlib

/-!
# Verification of the wealthgrabber data transformation and presentation pipeline

A shallow embedding of the pure core of the `wealthgrabber` command-line
reporting tool: the transform layer (`accounts.py`, `activities.py`,
`assets.py`), the aggregation/grouping logic, and the formatter layer
(`formatters.py`), together with theorems settling the frozen claims about
that core.

Modelling conventions:
* Python floats are modelled as rationals (`ℚ`); the claims under study are
  about exact arithmetic relations (`pnl = market_value - book_value`,
  zero-guarded division, sums over partitions), not about rounding.
* Loosely-typed dict records are modelled as structures with `Option` fields;
  `d.get(k, default)` becomes `Option.getD`.  A key stored with value `None`
  is identified with an absent key.
* The external market-data capability (`ws.get_security_market_data`) is an
  explicit parameter `fetch : String → FetchResult`; an exception raised by
  the call is the `FetchResult.error` outcome.  Functions that consult the
  per-invocation security cache thread it explicitly and report the number
  of external calls they performed.
* Python's `sorted` is a stable sort; it is modelled by `List.insertionSort`,
  which with a total, transitive comparison computes the unique stable
  sorted permutation.  String comparison is modelled lexicographically on
  the code points (`List Char`), matching Python string comparison.
* The table/CSV renderers emit lines of text; each emitted line is modelled
  as a structured value (one constructor per `lines.append`/`writerow` in
  the source) carrying exactly the data interpolated into that line.  The
  fixed-width padding and digit formatting of the final string are
  presentation only and are not modelled.
-/

namespace Wealthgrabber

/-! ## View-model types (`models.py`) -/

/-- `models.AccountData`. -/
structure AccountData where
  description : String
  number : String
  value : ℚ
  currency : String
deriving DecidableEq

/-- `models.ActivityData`. -/
structure ActivityData where
  date : String
  activity_type : String
  description : String
  amount : ℚ
  currency : String
  sign : String
  account_label : Option String := none
deriving DecidableEq

/-- `models.PositionData`. -/
structure PositionData where
  symbol : String
  name : String
  quantity : ℚ
  market_value : ℚ
  book_value : ℚ
  currency : String
  pnl : ℚ
  pnl_pct : ℚ
  account_label : Option String := none
deriving DecidableEq

/-! ## Text utilities

Python's `needle in haystack` substring test and `str.lower()`, modelled on
code-point lists. -/

/-- `needle` occurs at the start of `haystack` (both as code-point lists). -/
def startsWithChars : List Char → List Char → Bool
  | [], _ => true
  | _ :: _, [] => false
  | a :: as, b :: bs => a = b && startsWithChars as bs

/-- Python's substring test `needle in haystack` on code-point lists. -/
def containsSub (needle : List Char) : List Char → Bool
  | [] => needle.isEmpty
  | b :: bs => startsWithChars needle (b :: bs) || containsSub needle bs

/-- Python's `s.lower()` (the keywords under study are ASCII). -/
def lowerChars (s : String) : List Char := s.data.map Char.toLower

/-! ## Raw upstream records (§6 of the spec, the shapes consumed by the core) -/

/-- A `{amount, currency}` money dict. -/
structure RawMoney where
  amount : Option ℚ
  currency : Option String
deriving DecidableEq

/-- A raw account record.  `netLiquidationValue` stands for the nested
`financials.currentCombined.netLiquidationValue` dict, `none` when any level
of the nesting is absent. -/
structure RawAccount where
  id : Option String
  description : Option String
  number : Option String
  netLiquidationValue : Option RawMoney
deriving DecidableEq

/-- An `{id}` entry of a position's `accounts` list. -/
structure RawAccountRef where
  id : Option String
deriving DecidableEq

/-- A position's `security` dict. -/
structure RawSecurity where
  id : Option String
deriving DecidableEq

/-- A raw position record. -/
structure RawPosition where
  security : Option RawSecurity
  quantity : Option ℚ
  totalValue : Option RawMoney
  bookValue : Option RawMoney
  accounts : List RawAccountRef
deriving DecidableEq

/-- The `stock` dict of a market-data response. -/
structure RawStock where
  symbol : Option String
  name : Option String
deriving DecidableEq

/-- A market-data response. -/
structure RawMarketData where
  stock : Option RawStock
deriving DecidableEq

/-- Outcome of one `ws.get_security_market_data` call: a value (possibly a
falsy/stockless one) or a raised exception. -/
inductive FetchResult where
  | ok (md : Option RawMarketData)
  | error
deriving DecidableEq

/-- A raw activity record. -/
structure RawActivity where
  occurredAt : Option String
  type : Option String
  description : Option String
  amount : Option ℚ
  currency : Option String
  amountSign : Option String
  security : Option RawSecurity
deriving DecidableEq

/-! ## Account pipeline (`accounts.py`) -/

/-- The fixed keyword set of `accounts._is_non_liquid_account`. -/
def non_liquid_keywords : List String :=
  ["rrsp", "lira", "private equity", "private credit"]

/-- `accounts._is_non_liquid_account`: case-insensitive substring test of the
fixed keyword set against the description. -/
def is_non_liquid_account (description : String) : Bool :=
  non_liquid_keywords.any fun keyword => containsSub keyword.data (lowerChars description)

/-- `accounts._should_include_account`. -/
def should_include_account (is_non_liquid liquid_only not_liquid : Bool) : Bool :=
  if liquid_only && is_non_liquid then false
  else if not_liquid && !is_non_liquid then false
  else true

/-- `accounts._extract_account_value`: `(value, currency)` with the documented
defaults (`0`, `"CAD"`). -/
def extract_account_value (account : RawAccount) : ℚ × String :=
  match account.netLiquidationValue with
  | some m => (m.amount.getD 0, m.currency.getD "CAD")
  | none => (0, "CAD")

/-- The per-account keep test of the `accounts.get_accounts_data` loop: the
liquidity filter, then the zero-balance filter (`continue` of the loop body). -/
def account_included (show_zero_balances liquid_only not_liquid : Bool)
    (account : RawAccount) : Bool :=
  let description := account.description.getD "Unknown Account"
  let is_non_liquid := is_non_liquid_account description
  should_include_account is_non_liquid liquid_only not_liquid
    && (!((extract_account_value account).1 = 0) || show_zero_balances)

/-- `accounts.get_accounts_data`, with the fetched account list as input. -/
def get_accounts_data (accounts : List RawAccount)
    (show_zero_balances liquid_only not_liquid : Bool) : List AccountData :=
  (accounts.filter (account_included show_zero_balances liquid_only not_liquid)).map
    fun account =>
      { description := account.description.getD "Unknown Account"
        number := account.number.getD "N/A"
        value := (extract_account_value account).1
        currency := (extract_account_value account).2 }

/-! ## Security name resolver (`assets._get_security_info`,
`activities._get_security_name`)

Both variants take the external capability `fetch`, thread the per-invocation
cache, and report how many external calls were made (`0` or `1`).  Writing a
key is modelled by prepending the pair: a later `List.lookup` sees the new
binding first, exactly like a dict store. -/

/-- Cache of `assets._get_security_info`: id ↦ (symbol, name). -/
abbrev InfoCache := List (String × String × String)

/-- `assets._get_security_info`: `((symbol, name), cache after, external calls)`. -/
def get_security_info (fetch : String → FetchResult) (security_id : String)
    (cache : InfoCache) : (String × String) × InfoCache × Nat :=
  match cache.lookup security_id with
  | some v => (v, cache, 0)
  | none =>
    let r : String × String × Nat :=
      if security_id = "" then ("N/A", "Unknown", 0)
      else
        match fetch security_id with
        | .error => (security_id, security_id, 1)
        | .ok (some { stock := some st }) =>
            let symbol := st.symbol.getD "N/A"
            (symbol, st.name.getD symbol, 1)
        | .ok _ => ("N/A", "Unknown", 1)
    ((r.1, r.2.1), (security_id, r.1, r.2.1) :: cache, r.2.2)

/-- Cache of `activities._get_security_name`: id ↦ display name. -/
abbrev NameCache := List (String × String)

/-- `activities._get_security_name`: `(name, cache after, external calls)`. -/
def get_security_name (fetch : String → FetchResult) (security_id : String)
    (cache : NameCache) : String × NameCache × Nat :=
  match cache.lookup security_id with
  | some v => (v, cache, 0)
  | none =>
    let r : String × Nat :=
      if security_id = "" then (security_id, 0)
      else
        match fetch security_id with
        | .error => (security_id, 1)
        | .ok (some { stock := some st }) =>
            let symbol := st.symbol.getD ""
            let stock_name := st.name.getD ""
            (if symbol ≠ "" then symbol
             else if stock_name ≠ "" then stock_name else security_id, 1)
        | .ok _ => (security_id, 1)
    (r.1, (security_id, r.1) :: cache, r.2)

/-! ## Activity transformation (`activities._transform_activity`)

The record fields under verification (`amount`, `currency`, `sign`,
`activity_type` truncation, `account_label`) are translated exactly.  The
`date` and `description` fields are produced by `activities._format_date`
(ISO-8601 parsing) and `activities._enhance_description` (regex-based
security-id substitution); no frozen claim depends on their contents, so the
two helpers are abstracted as explicit function parameters and every theorem
below quantifies over them. -/

/-- `activities._transform_activity`. -/
def transform_activity (format_date : Option String → String)
    (enhance_description : RawActivity → String)
    (activity : RawActivity) (account_label : Option String) : ActivityData :=
  { date := format_date activity.occurredAt
    activity_type := (activity.type.getD "N/A").take 14
    description := (enhance_description activity).take 34
    amount := activity.amount.getD 0
    currency := activity.currency.getD "CAD"
    sign := if activity.amountSign = some "positive" then "+" else "-"
    account_label := account_label }

/-! ## Position pipeline (`assets.py`) -/

/-- `assets._get_position_account_ids`: the ids of the position's `accounts`
entries, dropping absent and falsy (empty) ids. -/
def position_account_ids (position : RawPosition) : List String :=
  position.accounts.filterMap fun acc =>
    match acc.id with
    | some s => if s = "" then none else some s
    | none => none

/-- The security id read by `assets._get_position_data`:
`position.get("security", {}).get("id", "")`. -/
def position_security_id (position : RawPosition) : String :=
  match position.security with
  | some sec => sec.id.getD ""
  | none => ""

/-- `float(position.get("totalValue", {}).get("amount", 0))`. -/
def raw_market_value (position : RawPosition) : ℚ :=
  match position.totalValue with
  | some tv => tv.amount.getD 0
  | none => 0

/-- `position.get("totalValue", {}).get("currency", currency)`. -/
def raw_val_currency (position : RawPosition) (currency : String) : String :=
  match position.totalValue with
  | some tv => tv.currency.getD currency
  | none => currency

/-- `float(position.get("bookValue", {}).get("amount", 0))`. -/
def raw_book_value (position : RawPosition) : ℚ :=
  match position.bookValue with
  | some bv => bv.amount.getD 0
  | none => 0

/-- `assets._get_position_data`: builds the `PositionData` view model and
threads the security cache. -/
def get_position_data (fetch : String → FetchResult) (position : RawPosition)
    (cache : InfoCache) (currency : String) : PositionData × InfoCache :=
  let r := get_security_info fetch (position_security_id position) cache
  { symbol := r.1.1
    name := r.1.2.take 30
    quantity := position.quantity.getD 0
    market_value := raw_market_value position
    book_value := raw_book_value position
    currency := raw_val_currency position currency
    pnl := raw_market_value position - raw_book_value position
    pnl_pct :=
      if raw_book_value position ≠ 0 then
        (raw_market_value position - raw_book_value position) / raw_book_value position * 100
      else 0
    account_label := none } |> fun pd => (pd, r.2.1)

/-- `assets._build_account_label`. -/
def build_account_label (account : RawAccount) : String :=
  account.description.getD "Unknown" ++ " (" ++ account.number.getD "N/A" ++ ")"

/-- The bucket `positions_by_account[acc_id]` built by the first loop of
`assets._get_positions_by_account_grouped`: each position appears once per
occurrence of `acc_id` among its account ids, in position order. -/
def account_bucket (positions : List RawPosition) (acc_id : String) : List RawPosition :=
  positions.flatMap fun p =>
    ((position_account_ids p).filter (fun i => i = acc_id)).map fun _ => p

/-- The inner loop of `assets._get_positions_by_account_grouped`: transform
each bucketed position, stamp the account label, thread the cache. -/
def emit_positions (fetch : String → FetchResult) (currency : String) (label : String) :
    List RawPosition → InfoCache → List PositionData × InfoCache
  | [], cache => ([], cache)
  | p :: rest, cache =>
      let r := get_position_data fetch p cache currency
      let tail := emit_positions fetch currency label rest r.2
      ({ r.1 with account_label := some label } :: tail.1, tail.2)

/-- The bucket `positions_by_account.get(account.get("id"), [])` of
`assets._get_positions_by_account_grouped` (an account without an id gets
the empty default: no position stores a missing or empty id). -/
def bucket_of (positions : List RawPosition) (account : RawAccount) : List RawPosition :=
  match account.id with
  | some i => account_bucket positions i
  | none => []

/-- `assets._get_positions_by_account_grouped`.  An account with an empty
bucket is skipped by the source (`continue`), which emits nothing either way. -/
def get_positions_by_account_grouped (fetch : String → FetchResult)
    (positions : List RawPosition) :
    List RawAccount → InfoCache → (currency : String) → List PositionData × InfoCache
  | [], cache, _ => ([], cache)
  | account :: rest, cache, currency =>
      let r := emit_positions fetch currency (build_account_label account)
        (bucket_of positions account) cache
      let tail := get_positions_by_account_grouped fetch positions rest r.2 currency
      (r.1 ++ tail.1, tail.2)

/-- The account owns the position: its id occurs among the position's
(non-falsy) account ids. -/
def owns_position (account : RawAccount) (p : RawPosition) : Bool :=
  match account.id with
  | some i => decide (i ∈ position_account_ids p)
  | none => false

/-- The supplied accounts that own a position. -/
def owning_accounts (accounts : List RawAccount) (p : RawPosition) : List RawAccount :=
  accounts.filter fun a => owns_position a p

/-- The P&L filter section of `assets.get_assets_data`. -/
def apply_pnl_filter (pnl_filter : Option String) (position_data : List PositionData) :
    List PositionData :=
  if pnl_filter = some "profit" then
    position_data.filter fun pos => decide (0 < pos.pnl)
  else if pnl_filter = some "loss" then
    position_data.filter fun pos => decide (pos.pnl < 0)
  else position_data

/-! ## Aggregation (`formatters._calculate_position_totals`,
`assets._calculate_position_totals`) -/

/-- `formatters._calculate_position_totals`:
`(total_value, total_book, total_pnl, total_pnl_pct)`. -/
def calculate_position_totals (positions : List PositionData) : ℚ × ℚ × ℚ × ℚ :=
  let total_value := (positions.map (·.market_value)).sum
  let total_book := (positions.map (·.book_value)).sum
  let total_pnl := total_value - total_book
  let total_pnl_pct := if total_book ≠ 0 then total_pnl / total_book * 100 else 0
  (total_value, total_book, total_pnl, total_pnl_pct)

/-- `assets._calculate_position_totals`: `(total_value, total_pnl, total_pnl_pct)`. -/
def calculate_position_totals3 (positions : List PositionData) : ℚ × ℚ × ℚ :=
  let total_value := (positions.map (·.market_value)).sum
  let total_book := (positions.map (·.book_value)).sum
  let total_pnl := total_value - total_book
  let total_pnl_pct := if total_book ≠ 0 then total_pnl / total_book * 100 else 0
  (total_value, total_pnl, total_pnl_pct)

/-! ## Grouping by account (`assets._print_positions_by_account`)

The source sorts the view models with `sorted(positions_data,
key=lambda p: p.account_label or "")` and then groups adjacent equal
`p.account_label` keys with `itertools.groupby`. -/

/-- The sort key `p.account_label or ""`, as a code-point list (Python
compares strings lexicographically by code point). -/
def label_key (p : PositionData) : List Char := (p.account_label.getD "").data

/-- Lexicographic `≤` on code-point lists: Python string comparison. -/
def lexLe : List Char → List Char → Bool
  | [], _ => true
  | _ :: _, [] => false
  | a :: as, b :: bs => if a < b then true else if a = b then lexLe as bs else false

/-- The comparison used by the `sorted(...)` call. -/
def label_le (p q : PositionData) : Prop := lexLe (label_key p) (label_key q) = true

instance : DecidableRel label_le := fun p q =>
  inferInstanceAs (Decidable (lexLe (label_key p) (label_key q) = true))

/-- The `sorted(positions_data, key=lambda p: p.account_label or "")` call:
Python's sort is stable, and a stable sort under a total transitive
comparison is the unique stably-sorted permutation, computed here by
insertion sort. -/
def sort_positions_by_label (ps : List PositionData) : List PositionData :=
  List.insertionSort label_le ps

/-- `itertools.groupby(..., key=lambda p: p.account_label)` over a list:
maximal runs of adjacent elements with equal keys, each run tagged with its
key.  `acc` accumulates the current run in reverse, `key` is its key. -/
def group_runs_aux (key : Option String) (acc : List PositionData) :
    List PositionData → List (Option String × List PositionData)
  | [] => [(key, acc.reverse)]
  | p :: rest =>
      if p.account_label = key then group_runs_aux key (p :: acc) rest
      else (key, acc.reverse) :: group_runs_aux p.account_label [p] rest

/-- `itertools.groupby` over a whole list. -/
def group_runs : List PositionData → List (Option String × List PositionData)
  | [] => []
  | p :: rest => group_runs_aux p.account_label [p] rest

/-- The grouped iteration of `assets._print_positions_by_account`: sort by
label then group adjacent equal labels. -/
def group_positions_by_account (ps : List PositionData) :
    List (Option String × List PositionData) :=
  group_runs (sort_positions_by_label ps)

/-- The distinct labels of a sequence in order of first appearance. -/
def first_appearance_labels : List PositionData → List (Option String)
  | [] => []
  | p :: rest =>
      p.account_label ::
        (first_appearance_labels rest).filter fun k => decide (k ≠ p.account_label)

/-- The grouping described by the spec sentence for claim C5 (one group per
label, groups in order of first appearance of each label in the input): a
second definition following the spec's words, to be compared with
`group_positions_by_account`, which is translated from the source. -/
def spec_first_appearance_groups (ps : List PositionData) :
    List (Option String × List PositionData) :=
  (first_appearance_labels ps).map fun k =>
    (k, ps.filter fun p => decide (p.account_label = k))

/-! ## Formatter layer (`formatters.py`)

Each table/CSV output line is modelled as a structured value carrying the
data interpolated into it; JSON output is modelled as the serialized
structure. -/

/-- One emitted line of the `TableFormatter` (one constructor per
`lines.append` site in the source). -/
inductive Line where
  /-- The empty-input sentinel string. -/
  | noData (msg : String)
  /-- An `"=" * width` rule. -/
  | rule (width : Nat)
  /-- A `"-" * width` rule. -/
  | dash (width : Nat)
  /-- The accounts column-header line. -/
  | accountsHeader
  /-- One account row. -/
  | accountRow (description number : String) (value : ℚ) (currency : String)
  /-- The accounts `Total` row. -/
  | accountsTotal (value : ℚ) (currency : String)
  /-- The positions column-header line. -/
  | positionsHeader
  /-- An `Account: <label>` banner. -/
  | accountBanner (label : String)
  /-- One position row. -/
  | positionRow (p : PositionData)
  /-- A positions totals row. -/
  | positionsTotal (label : String) (value pnl pnl_pct : ℚ) (currency : String)
  /-- The activities column-header line. -/
  | activitiesHeader
  /-- One activity row. -/
  | activityRow (a : ActivityData)
deriving DecidableEq

/-- `TableFormatter.format_accounts`.  The `Total` row's currency is the
literal `"CAD"` of the source. -/
def TableFormatter.format_accounts (accounts : List AccountData) : List Line :=
  if accounts = [] then [.noData "No accounts found."]
  else
    [Line.rule 80, Line.accountsHeader, Line.dash 80]
      ++ (accounts.map fun acc => Line.accountRow acc.description acc.number acc.value acc.currency)
      ++ [Line.rule 80, Line.accountsTotal ((accounts.map (·.value)).sum) "CAD", Line.rule 80]

/-- The body loop of `TableFormatter.format_activities`; `current` is the
`current_account` variable (`none` is Python's `None`). -/
def TableFormatter.activity_lines : List ActivityData → Option String → List Line
  | [], _ => []
  | act :: rest, current =>
      let truthy : Bool := act.account_label.getD "" ≠ ""
      if truthy ∧ act.account_label ≠ current then
        (if current ≠ none then [Line.rule 80] else [])
          ++ [Line.rule 80, Line.accountBanner (act.account_label.getD ""),
              Line.rule 80, Line.activitiesHeader, Line.dash 80, Line.activityRow act]
          ++ activity_lines rest act.account_label
      else if current = none then
        [Line.rule 80, Line.activitiesHeader, Line.dash 80, Line.activityRow act]
          ++ activity_lines rest (some "")
      else
        Line.activityRow act :: activity_lines rest current

/-- `TableFormatter.format_activities`. -/
def TableFormatter.format_activities (activities : List ActivityData) : List Line :=
  if activities = [] then [.noData "No activities found."]
  else TableFormatter.activity_lines activities none ++ [Line.rule 80]

/-- `TableFormatter.format_positions`. -/
def TableFormatter.format_positions (positions : List PositionData)
    (show_totals : Bool) (group_label : Option String) : List Line :=
  if positions = [] then [.noData "No positions found."]
  else
    (match group_label with
     | some gl => [Line.rule 94, Line.accountBanner gl, Line.rule 94]
     | none => [Line.rule 94])
      ++ [Line.positionsHeader, Line.dash 94]
      ++ positions.map Line.positionRow
      ++ (if show_totals then
            let t := calculate_position_totals positions
            [Line.rule 94,
             Line.positionsTotal (if group_label.isSome then "Account Total" else "Total")
               t.1 t.2.2.1 t.2.2.2
               ((positions.head?.map (·.currency)).getD "CAD"),
             Line.rule 94]
          else [])

/-- A JSON array result (`json.dumps([asdict(x) for x in xs], indent=2)`
is a direct structural serialization of the record list). -/
inductive JsonOut (α : Type) where
  | arr (items : List α)
deriving DecidableEq

/-- The `totals` envelope of `JsonFormatter.format_positions`. -/
structure JsonTotals where
  market_value : ℚ
  book_value : ℚ
  pnl : ℚ
  pnl_pct : ℚ
  currency : String
deriving DecidableEq

/-- The JSON value produced by `JsonFormatter.format_positions`: a bare array
or the `{positions, totals[, group]}` envelope. -/
inductive PositionsJson where
  | arr (positions : List PositionData)
  | withTotals (positions : List PositionData) (totals : JsonTotals) (group : Option String)
deriving DecidableEq

/-- `JsonFormatter.format_accounts`. -/
def JsonFormatter.format_accounts (accounts : List AccountData) : JsonOut AccountData :=
  .arr accounts

/-- `JsonFormatter.format_activities`. -/
def JsonFormatter.format_activities (activities : List ActivityData) : JsonOut ActivityData :=
  .arr activities

/-- `JsonFormatter.format_positions`.  The `group` key is added only when
`group_label` is truthy (non-`None`, non-empty). -/
def JsonFormatter.format_positions (positions : List PositionData)
    (show_totals : Bool) (group_label : Option String) : PositionsJson :=
  if show_totals ∧ positions ≠ [] then
    let total_value := (positions.map (·.market_value)).sum
    let total_book := (positions.map (·.book_value)).sum
    let total_pnl := total_value - total_book
    .withTotals positions
      { market_value := total_value
        book_value := total_book
        pnl := total_pnl
        pnl_pct := if total_book ≠ 0 then total_pnl / total_book * 100 else 0
        currency := (positions.head?.map (·.currency)).getD "CAD" }
      (match group_label with
       | some g => if g = "" then none else some g
       | none => none)
  else .arr positions

/-- One CSV row (one constructor per `writer.writerow` site in the source). -/
inductive CsvRow where
  /-- The header row. -/
  | header (cols : List String)
  /-- One account row. -/
  | account (description number : String) (value : ℚ) (currency : String)
  /-- One activity row. -/
  | activity (date activity_type description : String) (amount : ℚ)
      (currency sign account_label : String)
  /-- One position row. -/
  | position (symbol name : String) (quantity market_value book_value : ℚ)
      (currency : String) (pnl pnl_pct : ℚ) (account_label : String)
  /-- The trailing `TOTAL` sentinel row of `format_positions`. -/
  | total (quantity_sum market_value book_value : ℚ) (currency : String)
      (pnl pnl_pct : ℚ) (group_label : String)
deriving DecidableEq

/-- `CsvFormatter.format_accounts` (the empty string for no accounts is the
empty row list). -/
def CsvFormatter.format_accounts (accounts : List AccountData) : List CsvRow :=
  if accounts = [] then []
  else
    CsvRow.header ["description", "number", "value", "currency"]
      :: accounts.map fun acc => CsvRow.account acc.description acc.number acc.value acc.currency

/-- `CsvFormatter.format_activities`. -/
def CsvFormatter.format_activities (activities : List ActivityData) : List CsvRow :=
  if activities = [] then []
  else
    CsvRow.header ["date", "activity_type", "description", "amount", "currency",
        "sign", "account_label"]
      :: activities.map fun act =>
          CsvRow.activity act.date act.activity_type act.description act.amount
            act.currency act.sign (act.account_label.getD "")

/-- `CsvFormatter.format_positions`. -/
def CsvFormatter.format_positions (positions : List PositionData)
    (show_totals : Bool) (group_label : Option String) : List CsvRow :=
  if positions = [] then []
  else
    (CsvRow.header ["symbol", "name", "quantity", "market_value", "book_value",
        "currency", "pnl", "pnl_pct", "account_label"]
      :: positions.map fun pos =>
          CsvRow.position pos.symbol pos.name pos.quantity pos.market_value
            pos.book_value pos.currency pos.pnl pos.pnl_pct (pos.account_label.getD ""))
      ++ (if show_totals then
            let t := calculate_position_totals positions
            [CsvRow.total ((positions.map (·.quantity)).sum) t.1 t.2.1
              ((positions.head?.map (·.currency)).getD "CAD") t.2.2.1 t.2.2.2
              (group_label.getD "")]
          else [])

/-- The currency carried by the first `accountsTotal` line, if any. -/
def accounts_total_currency (lines : List Line) : Option String :=
  lines.findSome? fun line =>
    match line with
    | .accountsTotal _ c => some c
    | _ => none

/-- The currency carried by the first `positionsTotal` line, if any. -/
def positions_total_currency (lines : List Line) : Option String :=
  lines.findSome? fun line =>
    match line with
    | .positionsTotal _ _ _ _ c => some c
    | _ => none

/-- The currency carried by the first CSV `TOTAL` row, if any. -/
def csv_total_currency (rows : List CsvRow) : Option String :=
  rows.findSome? fun row =>
    match row with
    | .total _ _ _ c _ _ _ => some c
    | _ => none

/-- The currency of the `totals` envelope of a positions JSON value, if any. -/
def json_totals_currency : PositionsJson → Option String
  | .arr _ => none
  | .withTotals _ t _ => some t.currency

/-! ## Helper lemmas: the substring test -/

theorem startsWithChars_iff (needle hay : List Char) :
    startsWithChars needle hay = true ↔ ∃ post, hay = needle ++ post := by
  induction needle generalizing hay with
  | nil => simp [startsWithChars]
  | cons a as ih =>
      cases hay with
      | nil => simp [startsWithChars]
      | cons b bs =>
          simp only [startsWithChars, Bool.and_eq_true, decide_eq_true_eq, ih,
            List.cons_append, List.cons.injEq]
          constructor
          · rintro ⟨rfl, post, rfl⟩
            exact ⟨post, rfl, rfl⟩
          · rintro ⟨post, rfl, rfl⟩
            exact ⟨rfl, post, rfl⟩

theorem containsSub_iff (needle hay : List Char) :
    containsSub needle hay = true ↔ ∃ pre post, hay = pre ++ needle ++ post := by
  induction hay with
  | nil =>
      cases needle with
      | nil => simp [containsSub]
      | cons a as => simp [containsSub]
  | cons b bs ih =>
      simp only [containsSub, Bool.or_eq_true, startsWithChars_iff, ih]
      constructor
      · rintro (⟨post, h⟩ | ⟨pre, post, rfl⟩)
        · exact ⟨[], post, by simpa using h⟩
        · exact ⟨b :: pre, post, rfl⟩
      · rintro ⟨pre, post, h⟩
        cases pre with
        | nil =>
            simp only [List.nil_append] at h
            exact Or.inl ⟨post, h⟩
        | cons c cs =>
            simp only [List.cons_append, List.cons.injEq] at h
            exact Or.inr ⟨cs, post, by rw [h.2]⟩

/-! ## Claim C1 -/

/-- C1: for every position record the computed `pnl` is
`market_value - book_value` and `pnl_pct` is `pnl / book_value * 100` when
`book_value ≠ 0` and exactly `0` when `book_value = 0`; both totals
functions apply the identical rule to the summed market and book values of
any position sequence. -/
theorem C1_pnl_invariant :
    (∀ (fetch : String → FetchResult) (position : RawPosition) (cache : InfoCache)
        (currency : String),
        (get_position_data fetch position cache currency).1.pnl
            = (get_position_data fetch position cache currency).1.market_value
              - (get_position_data fetch position cache currency).1.book_value
          ∧ (get_position_data fetch position cache currency).1.pnl_pct
            = if (get_position_data fetch position cache currency).1.book_value ≠ 0 then
                (get_position_data fetch position cache currency).1.pnl
                  / (get_position_data fetch position cache currency).1.book_value * 100
              else 0)
      ∧ (∀ positions : List PositionData,
          (calculate_position_totals positions).2.2.1
              = (positions.map (·.market_value)).sum - (positions.map (·.book_value)).sum
            ∧ (calculate_position_totals positions).2.2.2
              = (if (positions.map (·.book_value)).sum ≠ 0 then
                    (calculate_position_totals positions).2.2.1
                      / (positions.map (·.book_value)).sum * 100
                  else 0)
            ∧ (calculate_position_totals3 positions).2.1
              = (positions.map (·.market_value)).sum - (positions.map (·.book_value)).sum
            ∧ (calculate_position_totals3 positions).2.2
              = (if (positions.map (·.book_value)).sum ≠ 0 then
                    (calculate_position_totals3 positions).2.1
                      / (positions.map (·.book_value)).sum * 100
                  else 0)) := by
  refine ⟨fun fetch position cache currency => ⟨rfl, rfl⟩, fun positions => ⟨rfl, rfl, rfl, rfl⟩⟩

/-! ## Claim C8 -/

/-- C8: `pnl_filter = "profit"` keeps exactly the positions with strictly
positive `pnl`, `"loss"` exactly those with strictly negative `pnl`, a zero
`pnl` is excluded by both, and `None` keeps all positions unchanged. -/
theorem C8_pnl_filter (position_data : List PositionData) (pos : PositionData) :
    (pos ∈ apply_pnl_filter (some "profit") position_data
        ↔ pos ∈ position_data ∧ 0 < pos.pnl)
      ∧ (pos ∈ apply_pnl_filter (some "loss") position_data
        ↔ pos ∈ position_data ∧ pos.pnl < 0)
      ∧ (pos.pnl = 0 →
          pos ∉ apply_pnl_filter (some "profit") position_data
            ∧ pos ∉ apply_pnl_filter (some "loss") position_data)
      ∧ apply_pnl_filter none position_data = position_data := by
  refine ⟨?_, ?_, ?_, ?_⟩
  · simp [apply_pnl_filter, List.mem_filter]
  · simp [apply_pnl_filter, List.mem_filter]
  · intro h
    simp [apply_pnl_filter, List.mem_filter, h]
  · simp [apply_pnl_filter]

/-! ## Claim C9 -/

/-- C9: every formatter method is total on the empty sequence: the table
formatter returns the explicit "no data" sentinel, the JSON formatter the
empty array, the CSV formatter the empty output. -/
theorem C9_formatters_total_on_empty :
    TableFormatter.format_accounts [] = [.noData "No accounts found."]
      ∧ TableFormatter.format_activities [] = [.noData "No activities found."]
      ∧ (∀ (st : Bool) (gl : Option String),
          TableFormatter.format_positions [] st gl = [.noData "No positions found."])
      ∧ JsonFormatter.format_accounts [] = .arr []
      ∧ JsonFormatter.format_activities [] = .arr []
      ∧ (∀ (st : Bool) (gl : Option String),
          JsonFormatter.format_positions [] st gl = .arr [])
      ∧ CsvFormatter.format_accounts [] = []
      ∧ CsvFormatter.format_activities [] = []
      ∧ (∀ (st : Bool) (gl : Option String),
          CsvFormatter.format_positions [] st gl = []) := by
  refine ⟨rfl, rfl, fun st gl => rfl, rfl, rfl, fun st gl => ?_, rfl, rfl, fun st gl => rfl⟩
  simp [JsonFormatter.format_positions]

/-! ## Claim C4 -/

/-- C4: both resolver variants return the cached value with zero external
calls on a cache hit, always write their result (fallbacks included) into
the cache before returning, make at most one external call, and therefore
make zero external calls on a second resolution of the same identifier. -/
theorem C4_security_cache_contract (fetch : String → FetchResult) (security_id : String) :
    (∀ (cache : InfoCache) (v : String × String),
        cache.lookup security_id = some v →
          get_security_info fetch security_id cache = (v, cache, 0))
      ∧ (∀ cache : InfoCache,
          (get_security_info fetch security_id cache).2.1.lookup security_id
            = some (get_security_info fetch security_id cache).1)
      ∧ (∀ cache : InfoCache,
          (get_security_info fetch security_id cache).2.2 ≤ 1
            ∧ (get_security_info fetch security_id
                ((get_security_info fetch security_id cache).2.1)).2.2 = 0
            ∧ (get_security_info fetch security_id
                ((get_security_info fetch security_id cache).2.1)).1
              = (get_security_info fetch security_id cache).1)
      ∧ (∀ (cache : NameCache) (v : String),
          cache.lookup security_id = some v →
            get_security_name fetch security_id cache = (v, cache, 0))
      ∧ (∀ cache : NameCache,
          (get_security_name fetch security_id cache).2.1.lookup security_id
            = some (get_security_name fetch security_id cache).1)
      ∧ (∀ cache : NameCache,
          (get_security_name fetch security_id cache).2.2 ≤ 1
            ∧ (get_security_name fetch security_id
                ((get_security_name fetch security_id cache).2.1)).2.2 = 0
            ∧ (get_security_name fetch security_id
                ((get_security_name fetch security_id cache).2.1)).1
              = (get_security_name fetch security_id cache).1) := by
  have hit_info : ∀ (cache : InfoCache) (v : String × String),
      cache.lookup security_id = some v →
        get_security_info fetch security_id cache = (v, cache, 0) := by
    intro cache v h
    simp [get_security_info, h]
  have writes_info : ∀ cache : InfoCache,
      (get_security_info fetch security_id cache).2.1.lookup security_id
        = some (get_security_info fetch security_id cache).1 := by
    intro cache
    rcases hl : cache.lookup security_id with _ | v
    · simp [get_security_info, hl, List.lookup]
    · simp [get_security_info, hl]
  have hit_name : ∀ (cache : NameCache) (v : String),
      cache.lookup security_id = some v →
        get_security_name fetch security_id cache = (v, cache, 0) := by
    intro cache v h
    simp [get_security_name, h]
  have writes_name : ∀ cache : NameCache,
      (get_security_name fetch security_id cache).2.1.lookup security_id
        = some (get_security_name fetch security_id cache).1 := by
    intro cache
    rcases hl : cache.lookup security_id with _ | v
    · simp [get_security_name, hl, List.lookup]
    · simp [get_security_name, hl]
  refine ⟨hit_info, writes_info, fun cache => ⟨?_, ?_, ?_⟩,
    hit_name, writes_name, fun cache => ⟨?_, ?_, ?_⟩⟩
  · rcases hl : cache.lookup security_id with _ | v
    · simp only [get_security_info, hl]
      split
      · simp_all
      · split <;> simp_all
    · simp [get_security_info, hl]
  · rw [hit_info _ _ (writes_info cache)]
  · rw [hit_info _ _ (writes_info cache)]
  · rcases hl : cache.lookup security_id with _ | v
    · simp only [get_security_name, hl]
      split
      · simp_all
      · split <;> simp_all
    · simp [get_security_name, hl]
  · rw [hit_name _ _ (writes_name cache)]
  · rw [hit_name _ _ (writes_name cache)]

/-! ## Claim C3 -/

/-- C3: an account is non-liquid exactly when its lower-cased description
contains one of the keywords as a substring; with the zero-balance setting
held equal, `liquid_only` keeps exactly the non-non-liquid accounts of the
unfiltered run, `not_liquid` exactly the non-liquid ones, so the two
inclusion sets are exact complements of each other within the unfiltered
(zero-balance-equal) run. -/
theorem C3_liquidity_complement :
    (∀ description : String,
        is_non_liquid_account description = true
          ↔ ∃ keyword ∈ non_liquid_keywords, ∃ pre post,
              lowerChars description = pre ++ keyword.data ++ post)
      ∧ (∀ (show_zero_balances : Bool) (account : RawAccount),
          account_included show_zero_balances true false account
              = (account_included show_zero_balances false false account
                  && !is_non_liquid_account (account.description.getD "Unknown Account"))
            ∧ account_included show_zero_balances false true account
              = (account_included show_zero_balances false false account
                  && is_non_liquid_account (account.description.getD "Unknown Account"))
            ∧ account_included show_zero_balances false true account
              = (account_included show_zero_balances false false account
                  && !(account_included show_zero_balances true false account)))
      ∧ (∀ (accounts : List RawAccount) (show_zero_balances : Bool) (a : RawAccount),
          a ∈ accounts.filter (account_included show_zero_balances false true)
            ↔ a ∈ accounts.filter (account_included show_zero_balances false false)
              ∧ a ∉ accounts.filter (account_included show_zero_balances true false)) := by
  have complement : ∀ (show_zero_balances : Bool) (account : RawAccount),
      account_included show_zero_balances true false account
          = (account_included show_zero_balances false false account
              && !is_non_liquid_account (account.description.getD "Unknown Account"))
        ∧ account_included show_zero_balances false true account
          = (account_included show_zero_balances false false account
              && is_non_liquid_account (account.description.getD "Unknown Account"))
        ∧ account_included show_zero_balances false true account
          = (account_included show_zero_balances false false account
              && !(account_included show_zero_balances true false account)) := by
    intro szb account
    rcases hnl : is_non_liquid_account (account.description.getD "Unknown Account") with _ | _
    all_goals simp [account_included, should_include_account, hnl, Bool.and_comm]
    all_goals tauto
  refine ⟨?_, complement, ?_⟩
  · intro description
    simp [is_non_liquid_account, List.any_eq_true, containsSub_iff]
  · intro accounts szb a
    rcases h1 : account_included szb false true a with _ | _ <;>
      rcases h2 : account_included szb false false a with _ | _ <;>
      rcases h3 : account_included szb true false a with _ | _ <;>
        simp [List.mem_filter, h1, h2, h3] <;>
        · have := (complement szb a).2.2
          rw [h1, h2, h3] at this
          simp at this

/-! ## Claim C7 -/

/-- The raw activity of the C7 counterexample: a negative raw amount with a
`"positive"` sign indicator. -/
def c7_activity : RawActivity :=
  { occurredAt := none, type := none, description := none, amount := some (-5),
    currency := none, amountSign := some "positive", security := none }

/-- C7 counterexample: the transform does not take an absolute value, so a
raw record with `amount = -5` is stored with a negative `amount`, refuting
"the stored amount is a non-negative magnitude" as a statement about every
raw record (while `sign` is still taken from `amountSign` alone). -/
theorem C7_counterexample :
    (transform_activity (fun _ => "") (fun _ => "") c7_activity none).amount = -5
      ∧ ¬(0 ≤ (transform_activity (fun _ => "") (fun _ => "") c7_activity none).amount)
      ∧ (transform_activity (fun _ => "") (fun _ => "") c7_activity none).sign = "+" := by
  refine ⟨rfl, by decide, rfl⟩

/-- C7 (amended): `sign` is `"+"` exactly when the raw `amountSign` equals
`"positive"` and `"-"` otherwise, independently of the amount's arithmetic
sign; the stored `amount` is the raw amount defaulted to `0`, unchanged — in
particular it is non-negative whenever the raw amount is (the code takes no
absolute value), but a negative raw amount is stored negative. -/
theorem C7_sign_from_indicator (format_date : Option String → String)
    (enhance_description : RawActivity → String) (activity : RawActivity)
    (account_label : Option String) :
    ((transform_activity format_date enhance_description activity account_label).sign
        = if activity.amountSign = some "positive" then "+" else "-")
      ∧ ((transform_activity format_date enhance_description activity account_label).sign = "+"
          ↔ activity.amountSign = some "positive")
      ∧ (transform_activity format_date enhance_description activity account_label).amount
          = activity.amount.getD 0
      ∧ (0 ≤ activity.amount.getD 0 →
          0 ≤ (transform_activity format_date enhance_description activity account_label).amount) := by
  refine ⟨rfl, ?_, rfl, fun h => h⟩
  by_cases h : activity.amountSign = some "positive" <;> simp [transform_activity, h]

/-! ## Helper lemmas: grouping produces a partition of the input -/

theorem group_runs_aux_flatten (l : List PositionData) :
    ∀ (key : Option String) (acc : List PositionData),
      ((group_runs_aux key acc l).map Prod.snd).flatten = acc.reverse ++ l := by
  induction l with
  | nil => intro key acc; simp [group_runs_aux]
  | cons p rest ih =>
      intro key acc
      by_cases h : p.account_label = key
      · rw [group_runs_aux, if_pos h, ih]
        simp
      · rw [group_runs_aux, if_neg h]
        simp [ih]

theorem group_runs_flatten (l : List PositionData) :
    ((group_runs l).map Prod.snd).flatten = l := by
  cases l with
  | nil => rfl
  | cons p rest => simpa using group_runs_aux_flatten rest p.account_label [p]

theorem sort_positions_perm (ps : List PositionData) :
    (sort_positions_by_label ps).Perm ps :=
  List.perm_insertionSort _ _

theorem group_positions_flatten_perm (ps : List PositionData) :
    ((group_positions_by_account ps).map Prod.snd).flatten.Perm ps := by
  rw [group_positions_by_account, group_runs_flatten]
  exact sort_positions_perm ps

theorem sum_map_sub (l : List (List PositionData)) (f g : List PositionData → ℚ) :
    (l.map fun x => f x - g x).sum = (l.map f).sum - (l.map g).sum := by
  induction l with
  | nil => simp
  | cons a t ih =>
      simp only [List.map_cons, List.sum_cons, ih]
      ring

theorem sum_of_subtotals (gs : List (List PositionData)) (f : PositionData → ℚ) :
    (gs.map fun g => (g.map f).sum).sum = (gs.flatten.map f).sum := by
  rw [List.map_flatten, List.sum_flatten, List.map_map]
  rfl

/-! ## Claim C2 -/

/-- C2: for any partition of a position sequence into groups (in particular
the code's partition by `account_label`), the grand total market value and
grand total P&L recomputed from the full ungrouped sequence coincide with
the sums of the per-group subtotals. -/
theorem C2_grand_total_partition (ps : List PositionData) :
    (∀ gs : List (List PositionData), gs.flatten.Perm ps →
        (gs.map fun g => (calculate_position_totals g).1).sum
            = (calculate_position_totals3 ps).1
          ∧ (gs.map fun g => (calculate_position_totals g).2.2.1).sum
            = (calculate_position_totals3 ps).2.1)
      ∧ ((group_positions_by_account ps).map Prod.snd).flatten.Perm ps
      ∧ (((group_positions_by_account ps).map Prod.snd).map
            fun g => (calculate_position_totals g).1).sum
          = (calculate_position_totals3 ps).1
      ∧ (((group_positions_by_account ps).map Prod.snd).map
            fun g => (calculate_position_totals g).2.2.1).sum
          = (calculate_position_totals3 ps).2.1 := by
  have main : ∀ gs : List (List PositionData), gs.flatten.Perm ps →
      (gs.map fun g => (calculate_position_totals g).1).sum
          = (calculate_position_totals3 ps).1
        ∧ (gs.map fun g => (calculate_position_totals g).2.2.1).sum
          = (calculate_position_totals3 ps).2.1 := by
    intro gs hperm
    have hv : (gs.map fun g => (g.map (·.market_value)).sum).sum
        = (ps.map (·.market_value)).sum := by
      rw [sum_of_subtotals]
      exact (hperm.map _).sum_eq
    have hb : (gs.map fun g => (g.map (·.book_value)).sum).sum
        = (ps.map (·.book_value)).sum := by
      rw [sum_of_subtotals]
      exact (hperm.map _).sum_eq
    constructor
    · exact hv
    · show (gs.map fun g =>
          (g.map (·.market_value)).sum - (g.map (·.book_value)).sum).sum = _
      rw [sum_map_sub, hv, hb]
      rfl
  exact ⟨main, group_positions_flatten_perm ps,
    (main _ (group_positions_flatten_perm ps)).1,
    (main _ (group_positions_flatten_perm ps)).2⟩

/-! ## Helper lemmas: scanning formatter output for the totals row -/

theorem findSome?_map_none {α β γ : Type} (g : α → β) (f : β → Option γ)
    (l : List α) (rest : List β) (hf : ∀ a, f (g a) = none) :
    ((l.map g) ++ rest).findSome? f = rest.findSome? f := by
  induction l with
  | nil => rfl
  | cons a t ih => simp [List.findSome?, hf, ih]

/-! ## Claim C6 -/

/-- An account record whose currency is not `"CAD"`, for the C6
counterexample. -/
def c6_account : AccountData :=
  { description := "Checking", number := "001", value := 7, currency := "USD" }

/-- C6 counterexample: the accounts-table `Total` row always displays the
literal `"CAD"`, so for a sequence whose first (only) item has currency
`"USD"` the totals-row currency is not the currency of the first item,
refuting the claim for the accounts table. -/
theorem C6_counterexample :
    accounts_total_currency (TableFormatter.format_accounts [c6_account]) = some "CAD"
      ∧ c6_account.currency = "USD"
      ∧ accounts_total_currency (TableFormatter.format_accounts [c6_account])
          ≠ some c6_account.currency := by
  refine ⟨?_, rfl, ?_⟩ <;>
    simp [TableFormatter.format_accounts, accounts_total_currency, List.findSome?, c6_account]

/-- C6 (amended): on a non-empty sequence the totals row of the positions
table, the positions CSV `TOTAL` row and the JSON `totals` envelope all carry
the currency of the first item; the accounts-table `Total` row instead always
displays the literal `"CAD"`, whatever the items' currencies. -/
theorem C6_totals_row_currency (positions : List PositionData) (hp : positions ≠ [])
    (group_label : Option String) (accounts : List AccountData) (ha : accounts ≠ []) :
    positions_total_currency (TableFormatter.format_positions positions true group_label)
        = positions.head?.map (·.currency)
      ∧ csv_total_currency (CsvFormatter.format_positions positions true group_label)
          = positions.head?.map (·.currency)
      ∧ json_totals_currency (JsonFormatter.format_positions positions true group_label)
          = positions.head?.map (·.currency)
      ∧ accounts_total_currency (TableFormatter.format_accounts accounts) = some "CAD" := by
  obtain ⟨p, rest, rfl⟩ := List.exists_cons_of_ne_nil hp
  obtain ⟨acc, arest, rfl⟩ := List.exists_cons_of_ne_nil ha
  refine ⟨?_, ?_, ?_, ?_⟩
  · cases group_label <;>
      simp [TableFormatter.format_positions, positions_total_currency, List.findSome?,
        findSome?_map_none]
  · simp [CsvFormatter.format_positions, csv_total_currency, List.findSome?,
      findSome?_map_none]
  · simp [JsonFormatter.format_positions, json_totals_currency]
  · simp [TableFormatter.format_accounts, accounts_total_currency, List.findSome?,
      findSome?_map_none]

/-- C6 witness: the amended statement applied to concrete one-element
sequences. -/
theorem C6_totals_row_currency_witness :
    positions_total_currency
        (TableFormatter.format_positions
          [{ symbol := "X", name := "X", quantity := 0, market_value := 0, book_value := 0,
             currency := "USD", pnl := 0, pnl_pct := 0, account_label := none }] true none)
      = some "USD" :=
  (C6_totals_row_currency
    [{ symbol := "X", name := "X", quantity := 0, market_value := 0, book_value := 0,
       currency := "USD", pnl := 0, pnl_pct := 0, account_label := none }]
    (by decide) none [c6_account] (by decide)).1

/-! ## Helper lemmas: bucket contents and double-counting sums (claim C10) -/

theorem filter_eq_singleton_of_nodup {l : List String} {i : String} (h : l.Nodup) :
    l.filter (fun x => decide (x = i)) = if i ∈ l then [i] else [] := by
  induction l with
  | nil => simp
  | cons a t ih =>
      rcases List.nodup_cons.mp h with ⟨ha, ht⟩
      by_cases hai : a = i
      · subst hai
        simp [List.filter_cons, ih ht, ha]
      · simp [List.filter_cons, hai, ih ht, Ne.symm hai]

theorem account_bucket_eq_filter (positions : List RawPosition) (i : String)
    (h : ∀ p ∈ positions, (position_account_ids p).Nodup) :
    account_bucket positions i
      = positions.filter fun p => decide (i ∈ position_account_ids p) := by
  induction positions with
  | nil => rfl
  | cons p rest ih =>
      have hp := h p (List.mem_cons_self p rest)
      have hrest := ih fun q hq => h q (List.mem_cons_of_mem _ hq)
      by_cases hm : i ∈ position_account_ids p <;>
        simp [account_bucket, List.flatMap_cons, List.filter_cons,
          filter_eq_singleton_of_nodup hp, hm, ← hrest, account_bucket]

theorem bucket_of_eq_filter (positions : List RawPosition) (account : RawAccount)
    (h : ∀ p ∈ positions, (position_account_ids p).Nodup) :
    bucket_of positions account = positions.filter fun p => owns_position account p := by
  rcases account with ⟨id, d, n, nl⟩
  cases id with
  | none => simp [bucket_of, owns_position]
  | some i => simpa [bucket_of, owns_position] using account_bucket_eq_filter positions i h

theorem get_position_data_market_value (fetch : String → FetchResult) (p : RawPosition)
    (cache : InfoCache) (currency : String) :
    (get_position_data fetch p cache currency).1.market_value = raw_market_value p := rfl

theorem get_position_data_book_value (fetch : String → FetchResult) (p : RawPosition)
    (cache : InfoCache) (currency : String) :
    (get_position_data fetch p cache currency).1.book_value = raw_book_value p := rfl

theorem emit_positions_parts (fetch : String → FetchResult) (currency label : String) :
    ∀ (ps : List RawPosition) (cache : InfoCache),
      ((emit_positions fetch currency label ps cache).1.map (·.market_value)
          = ps.map raw_market_value)
        ∧ ((emit_positions fetch currency label ps cache).1.map (·.book_value)
          = ps.map raw_book_value)
        ∧ ((emit_positions fetch currency label ps cache).1.map (·.account_label)
          = ps.map fun _ => some label)
        ∧ (emit_positions fetch currency label ps cache).1.length = ps.length := by
  intro ps
  induction ps with
  | nil => exact fun cache => ⟨rfl, rfl, rfl, rfl⟩
  | cons p rest ih =>
      intro cache
      have h := ih (get_position_data fetch p cache currency).2
      refine ⟨?_, ?_, ?_, ?_⟩ <;>
        simp [emit_positions, h.1, h.2.1, h.2.2.1, h.2.2.2,
          get_position_data_market_value, get_position_data_book_value]

theorem grouped_parts (fetch : String → FetchResult) (positions : List RawPosition)
    (currency : String) :
    ∀ (accounts : List RawAccount) (cache : InfoCache),
      ((get_positions_by_account_grouped fetch positions accounts cache currency).1.map
            (·.market_value)
          = accounts.flatMap fun a => (bucket_of positions a).map raw_market_value)
        ∧ ((get_positions_by_account_grouped fetch positions accounts cache currency).1.map
            (·.book_value)
          = accounts.flatMap fun a => (bucket_of positions a).map raw_book_value)
        ∧ ((get_positions_by_account_grouped fetch positions accounts cache currency).1.map
            (·.account_label)
          = accounts.flatMap fun a =>
              (bucket_of positions a).map fun _ => some (build_account_label a))
        ∧ (get_positions_by_account_grouped fetch positions accounts cache currency).1.length
          = (accounts.map fun a => (bucket_of positions a).length).sum := by
  intro accounts
  induction accounts with
  | nil => exact fun cache => ⟨rfl, rfl, rfl, rfl⟩
  | cons a rest ih =>
      intro cache
      have hemit := emit_positions_parts fetch currency (build_account_label a)
        (bucket_of positions a) cache
      have htail := ih (emit_positions fetch currency (build_account_label a)
        (bucket_of positions a) cache).2
      refine ⟨?_, ?_, ?_, ?_⟩ <;>
        simp [get_positions_by_account_grouped, List.flatMap_cons, hemit.1, hemit.2.1,
          hemit.2.2.1, hemit.2.2.2, htail.1, htail.2.1, htail.2.2.1, htail.2.2.2]

theorem length_filter_eq_sum {β : Type} (l : List β) (P : β → Bool) :
    (l.filter P).length = (l.map fun x => if P x then 1 else 0).sum := by
  induction l with
  | nil => rfl
  | cons a t ih =>
      by_cases h : P a
      · simp [List.filter_cons, h, ih]
        omega
      · simp [List.filter_cons, h, ih]

theorem sum_filter_eq_sum_ite {β : Type} (l : List β) (P : β → Bool) (f : β → ℚ) :
    ((l.filter P).map f).sum = (l.map fun x => if P x then f x else 0).sum := by
  induction l with
  | nil => rfl
  | cons a t ih => by_cases h : P a <;> simp [List.filter_cons, h, ih]

theorem sum_sum_comm {α β M : Type} [AddCommMonoid M] (as : List α) (bs : List β)
    (f : α → β → M) :
    (as.map fun a => (bs.map fun b => f a b).sum).sum
      = (bs.map fun b => (as.map fun a => f a b).sum).sum := by
  induction as with
  | nil => simp [List.map_const', List.sum_replicate]
  | cons a t ih => simp [ih, List.sum_map_add]

theorem sum_flatMap_parts {α M : Type} [AddCommMonoid M] (l : List α) (g : α → List M) :
    (l.flatMap g).sum = (l.map fun a => (g a).sum).sum := by
  induction l with
  | nil => rfl
  | cons a t ih => simp [List.flatMap_cons, ih]

theorem sum_ite_one (as : List RawAccount) (q : RawPosition) :
    (as.map fun a => if owns_position a q then 1 else 0).sum
      = (owning_accounts as q).length :=
  (length_filter_eq_sum as fun a => owns_position a q).symm

theorem sum_ite_mul (as : List RawAccount) (q : RawPosition) (c : ℚ) :
    (as.map fun a => if owns_position a q then c else 0).sum
      = ((owning_accounts as q).length : ℚ) * c := by
  induction as with
  | nil => simp [owning_accounts]
  | cons a t ih =>
      by_cases h : owns_position a q
      · simp [owning_accounts, List.filter_cons, h, ih]
        ring
      · simp [owning_accounts, List.filter_cons, h, ih]

theorem flatMap_ite_singleton {α β : Type} (as : List α) (P : α → Bool) (f : α → β) :
    (as.flatMap fun a => if P a then [f a] else []) = (as.filter P).map f := by
  induction as with
  | nil => rfl
  | cons a t ih => by_cases h : P a <;> simp [List.flatMap_cons, List.filter_cons, h, ih]

/-! ## Claim C10 -/

/-- C10: in the by-account view, with the owning-account set of each
position free of duplicate ids, a raw position owned by `k` of the supplied
accounts yields exactly `k` `PositionData` entries — one per owning account,
each labeled with that account — and its market and book value are counted
`k` times in the totals of the grouped report. -/
theorem C10_position_multiplicity (fetch : String → FetchResult)
    (positions : List RawPosition) (accounts : List RawAccount) (cache : InfoCache)
    (currency : String) (p : RawPosition)
    (h : ∀ q ∈ positions, (position_account_ids q).Nodup)
    (hp : (position_account_ids p).Nodup) :
    ((get_positions_by_account_grouped fetch positions accounts cache currency).1.length
        = (positions.map fun q => (owning_accounts accounts q).length).sum)
      ∧ (((get_positions_by_account_grouped fetch positions accounts cache currency).1.map
            (·.market_value)).sum
          = (positions.map fun q =>
              ((owning_accounts accounts q).length : ℚ) * raw_market_value q).sum)
      ∧ (((get_positions_by_account_grouped fetch positions accounts cache currency).1.map
            (·.book_value)).sum
          = (positions.map fun q =>
              ((owning_accounts accounts q).length : ℚ) * raw_book_value q).sum)
      ∧ ((get_positions_by_account_grouped fetch [p] accounts cache currency).1.map
            (·.account_label)
          = (owning_accounts accounts p).map fun a => some (build_account_label a)) := by
  have hparts := grouped_parts fetch positions currency accounts cache
  have hb : ∀ a : RawAccount,
      bucket_of positions a = positions.filter fun q => owns_position a q :=
    fun a => bucket_of_eq_filter positions a h
  refine ⟨?_, ?_, ?_, ?_⟩
  · rw [hparts.2.2.2]
    simp only [hb, length_filter_eq_sum]
    rw [sum_sum_comm]
    simp only [sum_ite_one]
  · rw [hparts.1, sum_flatMap_parts]
    simp only [hb, sum_filter_eq_sum_ite]
    rw [sum_sum_comm]
    simp only [sum_ite_mul]
  · rw [hparts.2.1, sum_flatMap_parts]
    simp only [hb, sum_filter_eq_sum_ite]
    rw [sum_sum_comm]
    simp only [sum_ite_mul]
  · have hsingle : ∀ q ∈ [p], (position_account_ids q).Nodup := by
      intro q hq
      rcases List.mem_singleton.mp hq with rfl
      exact hp
    have hparts1 := grouped_parts fetch [p] currency accounts cache
    rw [hparts1.2.2.1]
    have hbs : ∀ a : RawAccount,
        bucket_of [p] a = if owns_position a p then [p] else [] := by
      intro a
      rw [bucket_of_eq_filter [p] a hsingle]
      by_cases hq : owns_position a p <;> simp [List.filter_cons, hq]
    have hstep : (accounts.flatMap fun a =>
        (bucket_of [p] a).map fun _ => some (build_account_label a))
        = accounts.flatMap fun a =>
            if owns_position a p then [some (build_account_label a)] else [] := by
      simp only [hbs, apply_ite (List.map fun _ => some (build_account_label _)),
        List.map_cons, List.map_nil]
    rw [hstep, flatMap_ite_singleton]
    rfl

/-- A raw position owned by two accounts, for the C10 witness. -/
def c10_position : RawPosition :=
  { security := none, quantity := none,
    totalValue := some { amount := some 4, currency := none }, bookValue := none,
    accounts := [{ id := some "a1" }, { id := some "a2" }] }

/-- Two supplied accounts, one owning `c10_position`, one not. -/
def c10_accounts : List RawAccount :=
  [{ id := some "a1", description := none, number := none, netLiquidationValue := none },
   { id := some "a3", description := none, number := none, netLiquidationValue := none }]

/-- C10 witness: the multiplicity statement applied at a concrete position
and account list, the duplicate-freedom hypotheses discharged by computation. -/
theorem C10_position_multiplicity_witness :
    (get_positions_by_account_grouped (fun _ => .error) [c10_position] c10_accounts
        [] "CAD").1.length
      = ([c10_position].map fun q => (owning_accounts c10_accounts q).length).sum :=
  (C10_position_multiplicity (fun _ => .error) [c10_position] c10_accounts [] "CAD"
    c10_position (by decide) (by decide)).1

/-! ## Helper lemmas: the lexicographic comparison of sort keys -/

theorem lexLe_refl (a : List Char) : lexLe a a = true := by
  induction a with
  | nil => rfl
  | cons c t ih => simp [lexLe, ih]

theorem lexLe_total (a b : List Char) : lexLe a b = true ∨ lexLe b a = true := by
  induction a generalizing b with
  | nil => left; rfl
  | cons x xs ih =>
      cases b with
      | nil => right; rfl
      | cons y ys =>
          rcases lt_trichotomy x y with h | h | h
          · left; simp [lexLe, h]
          · subst h
            rcases ih ys with h2 | h2
            · left; simp [lexLe, h2]
            · right; simp [lexLe, h2]
          · right; simp [lexLe, h]

theorem lexLe_trans {a b c : List Char} (h1 : lexLe a b = true) (h2 : lexLe b c = true) :
    lexLe a c = true := by
  induction a generalizing b c with
  | nil => rfl
  | cons x xs ih =>
      cases b with
      | nil => simp [lexLe] at h1
      | cons y ys =>
          cases c with
          | nil => simp [lexLe] at h2
          | cons z zs =>
              by_cases hxy : x < y
              · by_cases hyz : y < z
                · simp [lexLe, lt_trans hxy hyz]
                · by_cases hyz2 : y = z
                  · subst hyz2
                    simp [lexLe, hxy]
                  · simp [lexLe, hyz, hyz2] at h2
              · by_cases hxy2 : x = y
                · subst hxy2
                  simp only [lexLe, if_neg hxy, if_pos rfl] at h1
                  by_cases hxz : x < z
                  · simp [lexLe, hxz]
                  · by_cases hxz2 : x = z
                    · subst hxz2
                      simp only [lexLe, if_neg hxz, if_pos rfl] at h2
                      simp [lexLe, ih h1 h2]
                    · simp [lexLe, hxz, hxz2] at h2
                · simp [lexLe, hxy, hxy2] at h1

theorem lexLe_antisymm {a b : List Char} (h1 : lexLe a b = true) (h2 : lexLe b a = true) :
    a = b := by
  induction a generalizing b with
  | nil =>
      cases b with
      | nil => rfl
      | cons y ys => simp [lexLe] at h2
  | cons x xs ih =>
      cases b with
      | nil => simp [lexLe] at h1
      | cons y ys =>
          by_cases hxy : x < y
          · have hyx : ¬ y < x := lt_asymm hxy
            have hne : y ≠ x := ne_of_gt hxy
            simp [lexLe, hyx, hne] at h2
          · by_cases hxy2 : x = y
            · subst hxy2
              simp only [lexLe, if_neg hxy, if_pos rfl] at h1 h2
              rw [ih h1 h2]
            · simp [lexLe, hxy, hxy2] at h1

instance : IsTotal PositionData label_le :=
  ⟨fun p q => lexLe_total (label_key p) (label_key q)⟩

instance : IsTrans PositionData label_le :=
  ⟨fun _ _ _ => lexLe_trans⟩

/-! ## Helper lemmas: stability of the sort -/

theorem sort_stable_filter (ps : List PositionData) (k : Option String) :
    (sort_positions_by_label ps).filter (fun p => decide (p.account_label = k))
      = ps.filter fun p => decide (p.account_label = k) := by
  set P : PositionData → Bool := fun p => decide (p.account_label = k) with hP
  have hpair : (ps.filter P).Pairwise label_le := by
    refine List.pairwise_of_forall_mem_list ?_
    intro x hx y hy
    have ex : x.account_label = k := by
      have := (List.mem_filter.mp hx).2
      simpa [hP] using this
    have ey : y.account_label = k := by
      have := (List.mem_filter.mp hy).2
      simpa [hP] using this
    show lexLe (label_key x) (label_key y) = true
    rw [label_key, label_key, ex, ey]
    exact lexLe_refl _
  have hsub : (ps.filter P).Sublist (sort_positions_by_label ps) :=
    List.sublist_insertionSort hpair (List.filter_sublist ps)
  have hself : (ps.filter P).filter P = ps.filter P :=
    List.filter_eq_self.mpr fun a ha => (List.mem_filter.mp ha).2
  have hsub2 : (ps.filter P).Sublist ((sort_positions_by_label ps).filter P) := by
    have := List.Sublist.filter P hsub
    rwa [hself] at this
  have hlen : ((sort_positions_by_label ps).filter P).length = (ps.filter P).length :=
    ((sort_positions_perm ps).filter P).length_eq
  exact (hsub2.eq_of_length hlen.symm).symm

/-! ## Helper lemmas: the shape of the grouped runs -/

theorem group_runs_aux_groups :
    ∀ (l : List PositionData) (key : Option String) (acc : List PositionData),
      acc ≠ [] → (∀ x ∈ acc, x.account_label = key) →
      ∀ kg ∈ group_runs_aux key acc l, kg.2 ≠ [] ∧ ∀ x ∈ kg.2, x.account_label = kg.1 := by
  intro l
  induction l with
  | nil =>
      intro key acc hne hacc kg hkg
      rw [group_runs_aux] at hkg
      rcases List.mem_singleton.mp hkg with rfl
      refine ⟨by simpa using hne, fun x hx => hacc x (List.mem_reverse.mp hx)⟩
  | cons p rest ih =>
      intro key acc hne hacc kg hkg
      by_cases h : p.account_label = key
      · rw [group_runs_aux, if_pos h] at hkg
        refine ih key (p :: acc) (by simp) ?_ kg hkg
        intro x hx
        rcases List.mem_cons.mp hx with rfl | hx2
        · exact h
        · exact hacc x hx2
      · rw [group_runs_aux, if_neg h] at hkg
        rcases List.mem_cons.mp hkg with rfl | hkg2
        · refine ⟨by simpa using hne, fun x hx => hacc x (List.mem_reverse.mp hx)⟩
        · exact ih p.account_label [p] (by simp) (by simp) kg hkg2

theorem group_runs_aux_head_key :
    ∀ (l : List PositionData) (key : Option String) (acc : List PositionData),
      ∃ ks, (group_runs_aux key acc l).map Prod.fst = key :: ks := by
  intro l
  induction l with
  | nil => intro key acc; exact ⟨[], rfl⟩
  | cons p rest ih =>
      intro key acc
      by_cases h : p.account_label = key
      · rw [group_runs_aux, if_pos h]
        exact ih key (p :: acc)
      · rw [group_runs_aux, if_neg h]
        obtain ⟨ks, hks⟩ := ih p.account_label [p]
        exact ⟨p.account_label :: ks, by simp [hks]⟩

/-- Strictly-ascending order on group keys: the sort keys compare `≤` and
differ. -/
def key_lt (k1 k2 : Option String) : Prop :=
  lexLe (k1.getD "").data (k2.getD "").data = true
    ∧ (k1.getD "").data ≠ (k2.getD "").data

instance : IsTrans (Option String) key_lt := by
  refine ⟨?_⟩
  rintro a b c ⟨h1, h2⟩ ⟨h3, h4⟩
  refine ⟨lexLe_trans h1 h3, fun he => ?_⟩
  have hba : lexLe ((b.getD "").data) ((a.getD "").data) = true := by
    rw [← he] at h3
    exact h3
  exact h2 (lexLe_antisymm h1 hba)

theorem group_runs_aux_keys_chain :
    ∀ (l : List PositionData) (key : Option String) (acc : List PositionData),
      l.Pairwise label_le →
      (∀ x ∈ l, x.account_label.isSome) → key.isSome →
      (∀ x ∈ l, lexLe (key.getD "").data (label_key x) = true) →
      List.Chain' key_lt ((group_runs_aux key acc l).map Prod.fst) := by
  intro l
  induction l with
  | nil =>
      intro key acc _ _ _ _
      rw [group_runs_aux]
      exact List.chain'_singleton key
  | cons p rest ih =>
      intro key acc hpair hsome hkey hbound
      have hpairrest : rest.Pairwise label_le := (List.pairwise_cons.mp hpair).2
      have hple : ∀ x ∈ rest, label_le p x := (List.pairwise_cons.mp hpair).1
      have hsomerest : ∀ x ∈ rest, x.account_label.isSome :=
        fun x hx => hsome x (List.mem_cons_of_mem _ hx)
      by_cases h : p.account_label = key
      · rw [group_runs_aux, if_pos h]
        refine ih key (p :: acc) hpairrest hsomerest hkey ?_
        intro x hx
        have hl := hple x hx
        have hlab : label_key p = (key.getD "").data := by rw [label_key, h]
        rw [label_le, hlab] at hl
        exact hl
      · rw [group_runs_aux, if_neg h]
        obtain ⟨ks, hks⟩ := group_runs_aux_head_key rest p.account_label [p]
        have hchain := ih p.account_label [p] hpairrest hsomerest
          (hsome p (List.mem_cons_self p rest)) (fun x hx => hple x hx)
        rw [List.map_cons, hks]
        rw [hks] at hchain
        refine List.chain'_cons.mpr ⟨⟨hbound p (List.mem_cons_self p rest), ?_⟩, hchain⟩
        intro he
        apply h
        obtain ⟨s, hs⟩ := Option.isSome_iff_exists.mp hkey
        obtain ⟨t, ht⟩ := Option.isSome_iff_exists.mp (hsome p (List.mem_cons_self p rest))
        rw [hs, ht] at he
        simp only [Option.getD_some] at he
        rw [hs, ht, String.ext he]

/-! ## Claim C5 -/

/-- Position labeled `"B"`, for the C5 counterexample. -/
def c5_pB : PositionData :=
  { symbol := "B", name := "B", quantity := 0, market_value := 0, book_value := 0,
    currency := "CAD", pnl := 0, pnl_pct := 0, account_label := some "B" }

/-- Position labeled `"A"`, for the C5 counterexample. -/
def c5_pA : PositionData :=
  { symbol := "A", name := "A", quantity := 0, market_value := 0, book_value := 0,
    currency := "CAD", pnl := 0, pnl_pct := 0, account_label := some "A" }

/-- C5 counterexample: on the input `[label "B", label "A"]` the code's
grouping (sort by label, then group adjacent equal labels) puts group `"A"`
before group `"B"`, while the order of first appearance of the labels in the
input is `"B"` then `"A"`; the code grouping therefore differs from the
first-appearance grouping the claim describes. -/
theorem C5_counterexample :
    (group_positions_by_account [c5_pB, c5_pA]).map Prod.fst = [some "A", some "B"]
      ∧ (spec_first_appearance_groups [c5_pB, c5_pA]).map Prod.fst = [some "B", some "A"]
      ∧ group_positions_by_account [c5_pB, c5_pA]
          ≠ spec_first_appearance_groups [c5_pB, c5_pA] := by
  decide

/-- C5 (amended): grouping by `account_label` is the stable partition of the
label-sorted sequence: the groups concatenate to the stable sort of the
input, each group is a non-empty run of items all bearing its label, the
group labels are strictly ascending in the lexicographic order of the sort
keys (so groups appear in ascending label order, not first-appearance order,
and each label forms exactly one group), and for every label the items
bearing it stay in input order. -/
theorem C5_grouping (ps : List PositionData)
    (hsome : ∀ p ∈ ps, p.account_label.isSome) :
    (((group_positions_by_account ps).map Prod.snd).flatten = sort_positions_by_label ps)
      ∧ (∀ kg ∈ group_positions_by_account ps,
          kg.2 ≠ [] ∧ ∀ x ∈ kg.2, x.account_label = kg.1)
      ∧ ((group_positions_by_account ps).map Prod.fst).Pairwise key_lt
      ∧ (∀ k : Option String,
          (sort_positions_by_label ps).filter (fun p => decide (p.account_label = k))
            = ps.filter fun p => decide (p.account_label = k)) := by
  have hsorted : (sort_positions_by_label ps).Pairwise label_le :=
    List.sorted_insertionSort label_le ps
  have hsome2 : ∀ x ∈ sort_positions_by_label ps, x.account_label.isSome :=
    fun x hx => hsome x ((sort_positions_perm ps).mem_iff.mp hx)
  refine ⟨group_runs_flatten _, ?_, ?_, fun k => sort_stable_filter ps k⟩
  · rw [group_positions_by_account]
    cases hs : sort_positions_by_label ps with
    | nil => simp [group_runs]
    | cons q rest =>
        intro kg hkg
        exact group_runs_aux_groups rest q.account_label [q] (by simp) (by simp) kg
          (by rw [group_runs] at hkg; exact hkg)
  · rw [group_positions_by_account]
    cases hs : sort_positions_by_label ps with
    | nil => simp [group_runs]
    | cons q rest =>
        have hpair : (q :: rest).Pairwise label_le := by rw [← hs]; exact hsorted
        have hsome3 : ∀ x ∈ q :: rest, x.account_label.isSome := by
          rw [← hs]; exact hsome2
        have hchain := group_runs_aux_keys_chain rest q.account_label [q]
          (List.pairwise_cons.mp hpair).2
          (fun x hx => hsome3 x (List.mem_cons_of_mem _ hx))
          (hsome3 q (List.mem_cons_self q rest))
          (fun x hx => (List.pairwise_cons.mp hpair).1 x hx)
        rw [group_runs]
        exact List.chain'_iff_pairwise.mp hchain

/-- C5 witness: the amended statement applied to a concrete sequence. -/
theorem C5_grouping_witness :
    ((group_positions_by_account [c5_pB, c5_pA]).map Prod.snd).flatten
      = sort_positions_by_label [c5_pB, c5_pA] :=
  (C5_grouping [c5_pB, c5_pA] (by decide)).1

end Wealthgrabber
